import Mathlib

/-!
Formal model of the storage, checkpoint, retry and queue-client layers of the
bbc_news_etl_pipeline repository, as a shallow embedding in Lean.

Each Lean definition is translated from a named Python function of the
repository (file and symbol given in its doc comment).  MongoDB collections
are modelled as lists of documents; a document field that may be absent is an
`Option`.  Dates and datetimes are modelled as natural numbers (ISO date
strings compare the same way chronologically); monetary fidelity to string
formatting is irrelevant to the properties proved here.  Fallible Python code
(raising `CustomException`) is modelled with `Except CustomException`.
-/

namespace BBCNewsETL

/-- Model of `src/exception/base.py`, `CustomException`: a typed error
carrying a message. -/
structure CustomException where
  message : String
deriving Repr, DecidableEq

/-! ### The WORK_CHECKPOINT collection (`src/clients/mongo/work_generator_repository.py`)

A document of the `WORK_CHECKPOINT` Mongo collection.  The checkpoint writer
stores `last_processed_date` and `updated_at`; the `date` field (which
`get_failed_jobs` reads) may or may not exist on a document, hence both are
`Option`.  `docId` models the Mongo `_id`. -/
structure WorkDoc where
  docId : Nat
  last_processed_date : Option Nat
  date : Option Nat
  updated_at : Nat
deriving Repr, DecidableEq

/-- Mongo sort key for `last_processed_date`: a missing field sorts below
every present value (MongoDB semantics for sorting on an absent field). -/
def lpdKey (d : WorkDoc) : Nat :=
  match d.last_processed_date with
  | none => 0
  | some v => v + 1

/-- Model of `collection.find_one(sort=[("last_processed_date", -1)])`:
the first document attaining the greatest `last_processed_date`
(missing field = smallest), or `none` on an empty collection. -/
def findOneByDateDesc : List WorkDoc → Option WorkDoc
  | [] => none
  | d :: ds =>
    match findOneByDateDesc ds with
    | none => some d
    | some m => if lpdKey d < lpdKey m then some m else some d

/-- Model of `WorkGeneratorRepository.get_last_checkpoint`
(`work_generator_repository.py`, lines 62-94): fetch the document with the
greatest `last_processed_date`; return its value when the field exists,
otherwise `None`. -/
def get_last_checkpoint (coll : List WorkDoc) : Option Nat :=
  match findOneByDateDesc coll with
  | some lastDoc => lastDoc.last_processed_date
  | none => none

/-- `update_one({"_id": targetId}, {"$set": ...})`: rewrite the first document
whose `_id` matches. -/
def updateFirstById (targetId : Nat) (f : WorkDoc → WorkDoc) :
    List WorkDoc → List WorkDoc
  | [] => []
  | d :: ds =>
    if d.docId = targetId then f d :: ds else d :: updateFirstById targetId f ds

/-- Model of `WorkGeneratorRepository.update_last_checkpoint`
(`work_generator_repository.py`, lines 96-134): find the document with the
greatest `last_processed_date`; if it exists and carries the field, `$set`
its `last_processed_date` and `updated_at` unconditionally; otherwise insert
a fresh document `{_id, last_processed_date, updated_at}`.  `newId` models
the fresh `ObjectId()`, `now` models `datetime.utcnow()`. -/
def update_last_checkpoint (newId now dateArg : Nat) (coll : List WorkDoc) :
    List WorkDoc :=
  match findOneByDateDesc coll with
  | some lastDoc =>
    if lastDoc.last_processed_date.isSome then
      updateFirstById lastDoc.docId
        (fun d => ⟨d.docId, some dateArg, d.date, now⟩) coll
    else coll ++ [⟨newId, some dateArg, none, now⟩]
  | none => coll ++ [⟨newId, some dateArg, none, now⟩]

/-! ### `get_failed_jobs` and the failed-job collection -/

/-- Mongo ascending sort key for the `date` field (missing field smallest). -/
def dateKey (d : WorkDoc) : Nat :=
  match d.date with
  | none => 0
  | some v => v + 1

/-- Model of the Python list comprehension `[job["date"] for job in result]`:
`KeyError` (hence `none` here) as soon as a document lacks the field. -/
def extractDates : List WorkDoc → Option (List Nat)
  | [] => some []
  | d :: ds =>
    match d.date with
    | some v => (extractDates ds).map (fun vs => v :: vs)
    | none => none

/-- The MongoDB database state relevant to `get_failed_jobs`: the
`WORK_CHECKPOINT` collection (config key `MONGODB_WORK_CHECKPOINT_NAME`) and
the dedicated failed-job collection (config key
`MONGODB_FAILED_JOB_COLLECTION_NAME`, default `BBC_FAILED_JOB_COLLECTION`,
see `src/entity/config_entity.py` line 48). -/
structure MongoDB where
  work_checkpoint : List WorkDoc
  failed_jobs : List WorkDoc
deriving Repr, DecidableEq

/-- Model of `WorkGeneratorRepository.get_failed_jobs`
(`work_generator_repository.py`, lines 33-60).  The source queries
`self.config.MONGODB_WORK_CHECKPOINT_NAME` — the checkpoint collection, not
the failed-job collection — sorts it ascending by `date`, and extracts
`job["date"]` from every document (a `KeyError`, wrapped into
`CustomException`, when a document lacks the field); it returns `None` when
the queried collection is empty. -/
def get_failed_jobs (db : MongoDB) : Except CustomException (Option (List Nat)) :=
  let result := List.insertionSort (fun a b => dateKey a ≤ dateKey b) db.work_checkpoint
  if result = [] then .ok none
  else
    match extractDates result with
    | some dates => .ok (some dates)
    | none => .error ⟨"KeyError: date"⟩

/-! ### Retry loops (`mongo_base.py` `_get_collection`, `rabbitmq_connector.py` `_connect`)

The loops are modelled over an oracle describing, for each attempt number
(1-based), whether that attempt fails.  Besides the final result each model
returns the list of back-off waits performed (in seconds, as rationals) and
the number of attempts made. -/

/-- Outcome of `MongoBaseRepository._get_collection`: the collection (tagged
with the attempt that succeeded), a raised `CustomException`, or the implicit
`None` return when the `for` loop body never runs. -/
inductive MongoGetResult where
  | collection (attempt : Nat)
  | exc (e : CustomException)
  | noneReturn
deriving Repr, DecidableEq

/-- Loop body of `MongoBaseRepository._get_collection` (`mongo_base.py`,
lines 185-208), iterating over the attempt numbers
`range(1, MAX_RETRIES + 1)`: on a `PyMongoError` at attempt `< maxRetries`
sleep `RETRY_DELAY * (2 ** (attempt - 1))` and continue; at the last attempt
raise `CustomException`; on success return the collection. -/
def getCollectionGo (fails : Nat → Bool) (retryDelay : ℚ) (maxRetries : Nat) :
    List Nat → MongoGetResult × List ℚ × Nat
  | [] => (.noneReturn, [], 0)
  | attempt :: rest =>
    if fails attempt then
      if attempt < maxRetries then
        let r := getCollectionGo fails retryDelay maxRetries rest
        (r.1, retryDelay * 2 ^ (attempt - 1) :: r.2.1, r.2.2 + 1)
      else (.exc ⟨"Failed to get MongoDB collection"⟩, [], 1)
    else (.collection attempt, [], 1)

/-- Model of `MongoBaseRepository._get_collection`: run the loop over
attempts `1, ..., maxRetries`. -/
def get_collection (fails : Nat → Bool) (retryDelay : ℚ) (maxRetries : Nat) :
    MongoGetResult × List ℚ × Nat :=
  getCollectionGo fails retryDelay maxRetries (List.range' 1 maxRetries)

/-- `MongoDBConfig.RETRY_DELAY` (`config_entity.py`, line 59). -/
def mongoRetryDelay : ℚ := 1

/-- `MongoDBConfig.MAX_RETRIES` (`config_entity.py`, line 58). -/
def mongoMaxRetries : Nat := 3

/-- Classification of one RabbitMQ connection attempt: success,
an `AMQPConnectionError` (transient, retried), or any other exception
(re-raised at once). -/
inductive AttemptOutcome where
  | success
  | transient
  | fatal
deriving Repr, DecidableEq

/-- Outcome of `RabbitMQClient._connect`: connected (tagged with the attempt
that succeeded) or a raised `CustomException` (the outer handler wraps both
the exhaustion `ConnectionError` and any unexpected error). -/
inductive RabbitResult where
  | connected (attempt : Nat)
  | exc (e : CustomException)
deriving Repr, DecidableEq

/-- Loop of `RabbitMQClient._connect` (`rabbitmq_connector.py`,
lines 82-146): `attempt` starts at 0 and the `while attempt < RETRIES` guard
is modelled by `fuel = RETRIES - attempt`.  The try-block of iteration with
counter `attempt` performs attempt number `attempt + 1`; on
`AMQPConnectionError` the counter is incremented and the loop sleeps
`RETRY_BACKOFF_FACTOR ** attempt + random.uniform(0, 0.5)` (so a sleep
follows every failed attempt, the last one included); the `while/else`
branch raises, wrapped into `CustomException` by the outer handler. -/
def rabbitConnectGo (outcome : Nat → AttemptOutcome) (factor : ℚ)
    (jitter : Nat → ℚ) : Nat → Nat → RabbitResult × List ℚ × Nat
  | _attempt, 0 => (.exc ⟨"Failed to connect to RabbitMQ after retries."⟩, [], 0)
  | attempt, fuel + 1 =>
    match outcome (attempt + 1) with
    | .success => (.connected (attempt + 1), [], 1)
    | .transient =>
      let r := rabbitConnectGo outcome factor jitter (attempt + 1) fuel
      (r.1, (factor ^ (attempt + 1) + jitter (attempt + 1)) :: r.2.1, r.2.2 + 1)
    | .fatal => (.exc ⟨"Unexpected error connecting to RabbitMQ"⟩, [], 1)

/-- Model of `RabbitMQClient._connect`: start at counter 0 with
`RETRIES` iterations available. -/
def rabbit_connect (outcome : Nat → AttemptOutcome) (factor : ℚ)
    (jitter : Nat → ℚ) (retries : Nat) : RabbitResult × List ℚ × Nat :=
  rabbitConnectGo outcome factor jitter 0 retries

/-- `RabbitMQConfig.RETRY_BACKOFF_FACTOR` (`config_entity.py`, line 105). -/
def rabbitBackoffFactor : ℚ := 2

/-- `RabbitMQConfig.RETRIES` (`config_entity.py`, line 104). -/
def rabbitRetries : Nat := 5

/-- Modelled from the spec: the claimed cross-cutting back-off formula, the
wait before attempt `k + 1` being
`base_delay * backoff_factor ^ (k - 1)` plus a jitter term. -/
def specBackoffWait (baseDelay factor : ℚ) (k : Nat) (j : ℚ) : ℚ :=
  baseDelay * factor ^ (k - 1) + j

/-! ### PostgreSQL client (`src/clients/postgres/postgres_base.py`) -/

/-- The article dictionary handed to `insert_article`; every
`article_data.get(key)` may yield `None`, hence all fields are `Option`.
Date fields are ISO strings in the source. -/
structure Article where
  title : Option String
  author : Option String
  source : Option String
  published_date : Option String
  scraped_date : Option String
  summary : Option String
  content : Option String
  url : Option String
  category : Option String
deriving Repr, DecidableEq

/-- A row of the articles table created by `create_table`
(`postgres_base.py`, lines 210-223): `title` and `url` are `NOT NULL`, `url`
is `UNIQUE`; timestamp columns hold parsed datetimes. -/
structure ArticleRow where
  title : String
  author : Option String
  source : Option String
  publish_date : Option Nat
  scraped_date : Option Nat
  summary : Option String
  content : Option String
  url : String
  category : Option String
deriving Repr, DecidableEq

/-- Model of `PostgreSQLOperation._parse_date` (`postgres_base.py`, lines
293-326): `None` stays `None`; a string is parsed by the external
`datetime.fromisoformat` (injected here as `parseIso`), and a `ValueError`
(parse failure) yields `None`. -/
def _parse_date (parseIso : String → Option Nat) : Option String → Option Nat
  | none => none
  | some s => parseIso s

/-- Model of `PostgreSQLOperation.insert_article` (`postgres_base.py`, lines
231-291): `INSERT ... ON CONFLICT (url) DO NOTHING`.  A `NULL` in a
`NOT NULL` column makes the statement raise (wrapped into
`CustomException`); a row whose `url` already exists leaves the table
unchanged; otherwise the row is appended. -/
def insert_article (parseIso : String → Option Nat) (table : List ArticleRow)
    (a : Article) : Except CustomException (List ArticleRow) :=
  match a.title, a.url with
  | some t, some u =>
    if table.any (fun r => r.url == u) then .ok table
    else .ok (table ++ [⟨t, a.author, a.source,
        _parse_date parseIso a.published_date,
        _parse_date parseIso a.scraped_date,
        a.summary, a.content, u, a.category⟩])
  | _, _ => .error ⟨"Article insert failed"⟩

/-- Result of one pass through `PostgreSQLOperation.connection_cursor`:
what the `with` body observed, the database state after the scope, and
whether cursor and connection were closed. -/
structure CursorScopeResult (δ ρ : Type) where
  result : Except CustomException ρ
  db : δ
  cursorClosed : Bool
  connClosed : Bool

/-- Model of `PostgreSQLOperation.connection_cursor` (`postgres_base.py`,
lines 105-144, identical logic in `postgress_connector.py` lines 90-134):
the body runs inside a transaction on the database state `db`; on normal
completion the transaction commits (the body's updated state becomes
durable); on an exception the transaction rolls back (the state reverts to
`db`) and the exception propagates; the `finally` block closes cursor and
connection on both paths. -/
def connection_cursor {δ ρ : Type} (db : δ)
    (body : δ → Except CustomException (δ × ρ)) : CursorScopeResult δ ρ :=
  match body db with
  | .ok (db', r) => ⟨.ok r, db', true, true⟩
  | .error e => ⟨.error e, db, true, true⟩

/-! ### The Mongo data collection (`mongo_base.py`, `producer_repository.py`) -/

/-- A document of the raw-data Mongo collection: its `url` (the item key)
and its `published` datetime, modelled as seconds. -/
structure ArticleDoc where
  url : String
  published : Nat
deriving Repr, DecidableEq

/-- Model of `MongoBaseRepository.insert_data` (`mongo_base.py`, lines
281-314): a plain `collection.insert_many(data)` appending every given
document. -/
def insert_data (coll data : List ArticleDoc) : List ArticleDoc :=
  coll ++ data

/-- Model of `ProducerRepository.is_article_link_exists`
(`producer_repository.py`, lines 91-135): `find_one({url: article_link})`,
`True` when a document was found, `False` otherwise; a failing query is
wrapped into `CustomException`.  `queryFails` is the oracle for the
underlying query outcome. -/
def is_article_link_exists (queryFails : Bool) (coll : List ArticleDoc)
    (article_link : String) : Except CustomException Bool :=
  if queryFails then .error ⟨"Error while fetching data from MongoDB"⟩
  else
    match coll.find? (fun d => d.url == article_link) with
    | some _ => .ok true
    | none => .ok false

/-- `$dateToString: {format: "%Y-%m-%d", date: "$published"}`: truncate a
datetime (seconds) to its calendar day. -/
def dateOf (t : Nat) : Nat := t / 86400

/-- One step of the `$group` stage: increment the count of group `k`, or
open a new group with count 1. -/
def bumpDate (k : Nat) : List (Nat × Nat) → List (Nat × Nat)
  | [] => [(k, 1)]
  | (k', c) :: gs =>
    if k = k' then (k', c + 1) :: gs else (k', c) :: bumpDate k gs

/-- The `$group` stage of the aggregation pipeline: one `(date, count)` group
per distinct `dateOf published` value of the documents. -/
def groupByDate : List ArticleDoc → List (Nat × Nat)
  | [] => []
  | a :: as => bumpDate (dateOf a.published) (groupByDate as)

/-- Model of `WorkGeneratorRepository.get_all_scarped_date_wise_doc_counts`
(`work_generator_repository.py`, lines 136-194) and of
`ProducerRepository.get_date_wise_doc_count` (`producer_repository.py`,
lines 30-89): `$group` by the `%Y-%m-%d` rendering of `published` with a
count per group, `$sort` ascending by the group key, and `None` when the
aggregation returned no groups. -/
def get_all_scarped_date_wise_doc_counts (docs : List ArticleDoc) :
    Option (List (Nat × Nat)) :=
  let result := List.insertionSort (fun p q => p.1 ≤ q.1) (groupByDate docs)
  if result = [] then none else some result

/-- Number of stored documents published on day `k`. -/
def countDate (docs : List ArticleDoc) (k : Nat) : Nat :=
  docs.countP (fun a => dateOf a.published == k)

/-- Observer for group lists: the count recorded for key `k` (0 when the key
has no group). -/
def countOf (gs : List (Nat × Nat)) (k : Nat) : Nat :=
  match gs.find? (fun p => p.1 == k) with
  | some p => p.2
  | none => 0

/-! ### `RabbitMQClient.publish` (`rabbitmq_connector.py`, lines 206-262) -/

/-- A Python value inside a message dictionary: JSON-serializable scalars, a
`datetime`, or any other non-serializable object. -/
inductive PyVal where
  | str (s : String)
  | num (n : Int)
  | datetime (t : Nat)
  | other
deriving Repr, DecidableEq

/-- The argument of `publish`: a dictionary or any non-dict object. -/
inductive PyObj where
  | dict (fields : List (String × PyVal))
  | nonDict
deriving Repr, DecidableEq

/-- `datetime.isoformat()`, modelled as an injective rendering of the
datetime. -/
def isoformat (t : Nat) : String := toString t

/-- Python dictionary lookup `message.get(k)`: the value at the key, if
present (keys of a dict are unique; first binding wins). -/
def getField (fields : List (String × PyVal)) (k : String) : Option PyVal :=
  match fields.find? (fun p => p.1 == k) with
  | some p => some p.2
  | none => none

/-- Python dictionary assignment `message[k] = v`: replace the binding of
`k`, appending it when absent. -/
def setField (k : String) (v : PyVal) :
    List (String × PyVal) → List (String × PyVal)
  | [] => [(k, v)]
  | p :: ps => if p.1 == k then (k, v) :: ps else p :: setField k v ps

/-- Whether `json.dumps` can encode the value. -/
def jsonSerializable : PyVal → Bool
  | .str _ => true
  | .num _ => true
  | .datetime _ => false
  | .other => false

/-- `json.dumps(message)`: the encoded body (represented by its field list)
when every value is serializable, a raised `TypeError` (`none`) otherwise. -/
def json_dumps (fields : List (String × PyVal)) :
    Option (List (String × PyVal)) :=
  if fields.all (fun p => jsonSerializable p.2) then some fields else none

/-- Outcome of `RabbitMQClient.publish`: the raised-or-ok result, and the
body handed to `channel.basic_publish`, when any. -/
structure PublishResult where
  result : Except CustomException Unit
  delivered : Option (List (String × PyVal))
deriving Repr

/-- Model of `RabbitMQClient.publish` (`rabbitmq_connector.py`, lines
206-262): a non-dict message raises `CustomException` before anything is
published; a dict whose `published` value is a `datetime` has that value
replaced by its `isoformat()` string; the message is then JSON-encoded and
handed to the broker, any encoding failure being wrapped into
`CustomException` with nothing published. -/
def publish (m : PyObj) : PublishResult :=
  match m with
  | .nonDict => ⟨.error ⟨"Message must be a dict"⟩, none⟩
  | .dict fields =>
    let fields' :=
      match getField fields "published" with
      | some (.datetime t) => setField "published" (.str (isoformat t)) fields
      | _ => fields
    match json_dumps fields' with
    | some body => ⟨.ok (), some body⟩
    | none => ⟨.error ⟨"Error publishing message"⟩, none⟩

/-! ### Concrete states used by witnesses and counterexamples -/

/-- Attempt trace: attempt 1 fails transiently, attempt 2 connects. -/
def c4Outcome : Nat → AttemptOutcome :=
  fun k => if k = 1 then .transient else .success

/-- A checkpoint collection with documents carrying dates 3 and 9 and one
document without the field. -/
def c7coll : List WorkDoc := [⟨1, some 3, none, 0⟩, ⟨2, none, none, 0⟩, ⟨3, some 9, none, 0⟩]

/-- A stored relational row keyed by url `u`. -/
def c2row : ArticleRow := ⟨"t", none, none, none, none, none, none, "u", none⟩

/-- The article dictionary that maps to `c2row`. -/
def c2article : Article :=
  ⟨some "t", none, none, none, none, none, none, some "u", none⟩

/-- A document-store record keyed by url `u`. -/
def c2doc : ArticleDoc := ⟨"u", 0⟩

/-- Three stored documents over two distinct published days. -/
def c9docs : List ArticleDoc := [⟨"a", 0⟩, ⟨"b", 86400⟩, ⟨"c", 10⟩]

instance : IsTotal (Nat × Nat) (fun p q => p.1 ≤ q.1) :=
  ⟨fun a b => Nat.le_total a.1 b.1⟩

instance : IsTrans (Nat × Nat) (fun p q => p.1 ≤ q.1) :=
  ⟨fun _ _ _ hab hbc => Nat.le_trans hab hbc⟩

/-! ## Lemmas -/

lemma lpdKey_eq_zero {d : WorkDoc} :
    lpdKey d = 0 ↔ d.last_processed_date = none := by
  cases h : d.last_processed_date <;> simp [lpdKey, h]

lemma lpdKey_of_some {d : WorkDoc} {w : Nat}
    (h : d.last_processed_date = some w) : lpdKey d = w + 1 := by
  simp [lpdKey, h]

lemma findOneByDateDesc_eq_none {coll : List WorkDoc} :
    findOneByDateDesc coll = none ↔ coll = [] := by
  cases coll with
  | nil => simp [findOneByDateDesc]
  | cons d ds =>
    simp only [findOneByDateDesc]
    cases findOneByDateDesc ds with
    | none => simp
    | some m =>
      by_cases h : lpdKey d < lpdKey m <;> simp [h]

lemma findOneByDateDesc_spec {coll : List WorkDoc} {m : WorkDoc}
    (h : findOneByDateDesc coll = some m) :
    m ∈ coll ∧ ∀ d ∈ coll, lpdKey d ≤ lpdKey m := by
  induction coll generalizing m with
  | nil => simp [findOneByDateDesc] at h
  | cons d ds ih =>
    simp only [findOneByDateDesc] at h
    cases hds : findOneByDateDesc ds with
    | none =>
      rw [hds] at h
      cases h
      have : ds = [] := findOneByDateDesc_eq_none.mp hds
      subst this
      exact ⟨List.mem_singleton_self d, by intro x hx; simp at hx; simp [hx]⟩
    | some m' =>
      rw [hds] at h
      dsimp only at h
      obtain ⟨hm', hbound⟩ := ih hds
      by_cases hlt : lpdKey d < lpdKey m'
      · rw [if_pos hlt] at h
        cases h
        refine ⟨List.mem_cons_of_mem _ hm', ?_⟩
        intro x hx
        rcases List.mem_cons.mp hx with hx | hx
        · subst hx; exact Nat.le_of_lt hlt
        · exact hbound x hx
      · rw [if_neg hlt] at h
        cases h
        refine ⟨List.mem_cons_self _ _, ?_⟩
        intro x hx
        rcases List.mem_cons.mp hx with hx | hx
        · subst hx; exact Nat.le_refl _
        · exact Nat.le_trans (hbound x hx) (Nat.le_of_not_lt hlt)

lemma getCollectionGo_exhaust (fails : Nat → Bool) (delay : ℚ) (maxR : Nat) :
    ∀ (n a : Nat), 1 ≤ n → a + n = maxR + 1 →
      (∀ k, a ≤ k → k ≤ maxR → fails k = true) →
      getCollectionGo fails delay maxR (List.range' a n) =
        (.exc ⟨"Failed to get MongoDB collection"⟩,
         (List.range' a (n - 1)).map (fun k => delay * 2 ^ (k - 1)), n) := by
  intro n
  induction n with
  | zero => intro a h; omega
  | succ m ih =>
    intro a _ hsum hfail
    rw [List.range'_succ]
    simp only [getCollectionGo]
    rw [hfail a (Nat.le_refl a) (by omega)]
    by_cases hm : m = 0
    · subst hm
      have ha : ¬ a < maxR := by omega
      simp [ha]
    · have ha : a < maxR := by omega
      simp only [if_true, if_pos ha]
      rw [ih (a + 1) (by omega) (by omega)
        (fun k hk1 hk2 => hfail k (by omega) hk2)]
      have hm' : m + 1 - 1 = (m - 1) + 1 := by omega
      rw [hm', List.range'_succ]
      simp

lemma getCollectionGo_success (fails : Nat → Bool) (delay : ℚ) (maxR : Nat) :
    ∀ (n a s : Nat), a ≤ s → s < a + n → s ≤ maxR →
      (∀ k, a ≤ k → k < s → fails k = true) → fails s = false →
      getCollectionGo fails delay maxR (List.range' a n) =
        (.collection s,
         (List.range' a (s - a)).map (fun k => delay * 2 ^ (k - 1)), s - a + 1) := by
  intro n
  induction n with
  | zero => intro a s h1 h2; omega
  | succ m ih =>
    intro a s ha hs hsm hfail hok
    rw [List.range'_succ]
    simp only [getCollectionGo]
    by_cases has : a = s
    · subst has
      rw [hok]
      simp
    · have ha' : a < s := by omega
      rw [hfail a (Nat.le_refl a) ha']
      have haR : a < maxR := by omega
      simp only [if_true, if_pos haR]
      rw [ih (a + 1) s (by omega) (by omega) hsm
        (fun k hk1 hk2 => hfail k (by omega) hk2) hok]
      have hsa : s - a = (s - (a + 1)) + 1 := by omega
      rw [hsa, List.range'_succ]
      simp

lemma rabbitConnectGo_exhaust (outcome : Nat → AttemptOutcome) (factor : ℚ)
    (jitter : Nat → ℚ) :
    ∀ (fuel attempt : Nat),
      (∀ k, attempt + 1 ≤ k → k ≤ attempt + fuel → outcome k = .transient) →
      rabbitConnectGo outcome factor jitter attempt fuel =
        (.exc ⟨"Failed to connect to RabbitMQ after retries."⟩,
         (List.range' (attempt + 1) fuel).map (fun k => factor ^ k + jitter k),
         fuel) := by
  intro fuel
  induction fuel with
  | zero => intro attempt _; rfl
  | succ m ih =>
    intro attempt h
    simp only [rabbitConnectGo]
    rw [h (attempt + 1) (Nat.le_refl _) (by omega)]
    rw [ih (attempt + 1) (fun k hk1 hk2 => h k (by omega) (by omega))]
    rw [List.range'_succ]
    simp

lemma rabbitConnectGo_success (outcome : Nat → AttemptOutcome) (factor : ℚ)
    (jitter : Nat → ℚ) :
    ∀ (mFail fuel attempt : Nat), mFail < fuel →
      (∀ k, attempt + 1 ≤ k → k ≤ attempt + mFail → outcome k = .transient) →
      outcome (attempt + mFail + 1) = .success →
      rabbitConnectGo outcome factor jitter attempt fuel =
        (.connected (attempt + mFail + 1),
         (List.range' (attempt + 1) mFail).map (fun k => factor ^ k + jitter k),
         mFail + 1) := by
  intro mFail
  induction mFail with
  | zero =>
    intro fuel attempt hf _ hsucc
    obtain ⟨f, rfl⟩ : ∃ f, fuel = f + 1 := ⟨fuel - 1, by omega⟩
    simp only [rabbitConnectGo]
    rw [show attempt + 0 + 1 = attempt + 1 by omega] at hsucc
    rw [hsucc]
    simp
  | succ m ih =>
    intro fuel attempt hf htrans hsucc
    obtain ⟨f, rfl⟩ : ∃ f, fuel = f + 1 := ⟨fuel - 1, by omega⟩
    simp only [rabbitConnectGo]
    rw [htrans (attempt + 1) (Nat.le_refl _) (by omega)]
    rw [ih f (attempt + 1) (by omega)
      (fun k hk1 hk2 => htrans k (by omega) (by omega))
      (by rw [show attempt + 1 + m + 1 = attempt + (m + 1) + 1 by omega]
          exact hsucc)]
    rw [List.range'_succ]
    simp only []
    refine congrArg₂ Prod.mk ?_ (congrArg₂ Prod.mk rfl rfl)
    rw [show attempt + 1 + m + 1 = attempt + (m + 1) + 1 by omega]

/-! ## Claims -/

/-- C1 (counterexample): `update_last_checkpoint` is claimed to change the
stored cursor only when the new date is strictly later, making the cursor
non-decreasing.  On a store whose cursor is 5, advancing with the earlier
date 3 overwrites the cursor to 3: the claim is false. -/
theorem C1_counterexample :
    (3 : Nat) < 5 ∧
    get_last_checkpoint [⟨1, some 5, none, 0⟩] = some 5 ∧
    get_last_checkpoint (update_last_checkpoint 2 7 3 [⟨1, some 5, none, 0⟩]) =
      some 3 := by
  decide

/-- C1 (amended): `update_last_checkpoint` applies unconditionally — on any
single-document checkpoint store it overwrites the stored cursor with the
supplied date, whatever the order between the old and the new date; hence
the stored cursor date is not non-decreasing across advance calls. -/
theorem C1_amended_unconditional_overwrite
    (i c u newId now dNew : Nat) (dt : Option Nat) :
    get_last_checkpoint
      (update_last_checkpoint newId now dNew [⟨i, some c, dt, u⟩]) = some dNew := by
  simp [update_last_checkpoint, findOneByDateDesc, updateFirstById,
    get_last_checkpoint]

/-- C3 (code bug): `get_failed_jobs` is claimed (also by its own docstring)
to read the dedicated failed-job collection and return the failed jobs'
dates ascending.  The source instead queries the checkpoint collection
(`MONGODB_WORK_CHECKPOINT_NAME`): with a failed job recorded and an empty
checkpoint collection it returns `None`; with a checkpoint document present
(which has no `date` field) it raises the wrapped `KeyError`. -/
theorem C3_reads_checkpoint_collection :
    ((⟨[], [⟨1, none, some 20240101, 0⟩]⟩ : MongoDB).failed_jobs ≠ [] ∧
      get_failed_jobs ⟨[], [⟨1, none, some 20240101, 0⟩]⟩ = .ok none) ∧
    get_failed_jobs ⟨[⟨1, some 5, none, 0⟩], [⟨2, none, some 20240101, 0⟩]⟩ =
      .error ⟨"KeyError: date"⟩ := by
  exact ⟨⟨by decide, rfl⟩, rfl⟩

/-- C7: `get_last_checkpoint` returns `None` exactly when no document of the
checkpoint collection carries a `last_processed_date` field, and otherwise
the greatest `last_processed_date` value present (the read is a pure
function of the store and modifies nothing). -/
theorem C7_get_last_checkpoint_max (coll : List WorkDoc) :
    (get_last_checkpoint coll = none ↔
      ∀ d ∈ coll, d.last_processed_date = none) ∧
    (∀ v, get_last_checkpoint coll = some v →
      (∃ d ∈ coll, d.last_processed_date = some v) ∧
      ∀ d ∈ coll, ∀ w, d.last_processed_date = some w → w ≤ v) := by
  constructor
  · cases hf : findOneByDateDesc coll with
    | none =>
      have : coll = [] := findOneByDateDesc_eq_none.mp hf
      subst this
      simp [get_last_checkpoint, findOneByDateDesc]
    | some m =>
      obtain ⟨hm, hbound⟩ := findOneByDateDesc_spec hf
      simp only [get_last_checkpoint, hf]
      constructor
      · intro hnone d hd
        have h0 : lpdKey m = 0 := lpdKey_eq_zero.mpr hnone
        have := hbound d hd
        rw [h0] at this
        exact lpdKey_eq_zero.mp (Nat.le_zero.mp this)
      · intro hall
        exact hall m hm
  · intro v hv
    cases hf : findOneByDateDesc coll with
    | none => simp [get_last_checkpoint, hf] at hv
    | some m =>
      obtain ⟨hm, hbound⟩ := findOneByDateDesc_spec hf
      simp only [get_last_checkpoint, hf] at hv
      refine ⟨⟨m, hm, hv⟩, ?_⟩
      intro d hd w hw
      have h1 : lpdKey d = w + 1 := lpdKey_of_some hw
      have h2 : lpdKey m = v + 1 := lpdKey_of_some hv
      have := hbound d hd
      omega

/-- C7 witness: on a concrete three-document collection the read returns the
maximal date 9 and the bounds given by the theorem hold. -/
theorem C7_witness :
    get_last_checkpoint c7coll = some 9 ∧
    ((∃ d ∈ c7coll, d.last_processed_date = some 9) ∧
      ∀ d ∈ c7coll, ∀ w, d.last_processed_date = some w → w ≤ 9) :=
  ⟨by decide, (C7_get_last_checkpoint_max c7coll).2 9 (by decide)⟩

/-- C2 (counterexample): the document-store write is claimed to be a no-op
when a record with the same url is already stored.  `insert_data` is a plain
`insert_many`: re-delivering the record changes the collection and leaves
two documents with url `u`. -/
theorem C2_counterexample :
    insert_data [c2doc] [c2doc] ≠ [c2doc] ∧
    (insert_data [c2doc] [c2doc]).countP (fun d => d.url == "u") = 2 := by
  decide

/-- C2 (amended): only the relational backend is idempotent per url — for a
well-formed article (non-null title and url) whose url is already stored,
`insert_article` returns without error and leaves the table unchanged; the
document-store `insert_data` appends its argument documents unconditionally,
so a second write duplicates the record there. -/
theorem C2_amended_relational_only (parseIso : String → Option Nat)
    (table : List ArticleRow) (a : Article) (t u : String)
    (htitle : a.title = some t) (hurl : a.url = some u)
    (hex : ∃ r ∈ table, r.url = u)
    (coll data : List ArticleDoc) :
    insert_article parseIso table a = .ok table ∧
    insert_data coll data = coll ++ data := by
  refine ⟨?_, rfl⟩
  have hany : table.any (fun r => r.url == u) = true := by
    obtain ⟨r, hr, hru⟩ := hex
    exact List.any_eq_true.mpr ⟨r, hr, by simp [hru]⟩
  simp [insert_article, htitle, hurl, hany]

/-- C2 witness: concrete instantiation of the amended theorem at a table
already holding url `u`. -/
theorem C2_amended_relational_only_witness :
    (c2article.title = some "t" ∧ c2article.url = some "u" ∧
      ∃ r ∈ [c2row], r.url = "u") ∧
    (insert_article (fun _ => none) [c2row] c2article = .ok [c2row] ∧
      insert_data [c2doc] [c2doc] = [c2doc] ++ [c2doc]) :=
  ⟨⟨rfl, rfl, by decide⟩,
    C2_amended_relational_only (fun _ => none) [c2row] c2article "t" "u"
      rfl rfl (by decide) [c2doc] [c2doc]⟩

/-- C6: every database operation run inside the `connection_cursor` scope is
atomic with guaranteed resource release — when the body completes, the
transaction commits (the body's state becomes the final state); when the
body raises, the transaction rolls back (state unchanged) and the exception
propagates; and on both exit paths cursor and connection are closed. -/
theorem C6_connection_cursor_scope {δ ρ : Type} (db : δ)
    (body : δ → Except CustomException (δ × ρ)) :
    ((connection_cursor db body).cursorClosed = true ∧
      (connection_cursor db body).connClosed = true) ∧
    (∀ db' r, body db = .ok (db', r) →
      (connection_cursor db body).result = .ok r ∧
      (connection_cursor db body).db = db') ∧
    (∀ e, body db = .error e →
      (connection_cursor db body).result = .error e ∧
      (connection_cursor db body).db = db) := by
  refine ⟨?_, ?_, ?_⟩
  · cases h : body db with
    | ok p => simp [connection_cursor, h]
    | error e => simp [connection_cursor, h]
  · intro db' r h
    simp [connection_cursor, h]
  · intro e h
    simp [connection_cursor, h]

/-- C6 witness: a committing body and a raising body, on a concrete list
database. -/
theorem C6_witness :
    ((fun d => Except.ok (3 :: d, 7) :
        List Nat → Except CustomException (List Nat × Nat)) [1, 2] =
      .ok (3 :: [1, 2], 7) ∧
     (fun _ => Except.error ⟨"boom"⟩ :
        List Nat → Except CustomException (List Nat × Nat)) [1, 2] =
      .error ⟨"boom"⟩) ∧
    ((connection_cursor [1, 2] (fun d => Except.ok (3 :: d, 7))).result =
        .ok 7 ∧
      (connection_cursor [1, 2] (fun d => Except.ok (3 :: d, 7))).db =
        3 :: [1, 2]) ∧
    ((connection_cursor [1, 2]
        (fun _ => (Except.error ⟨"boom"⟩ :
          Except CustomException (List Nat × Nat)))).result =
        .error ⟨"boom"⟩ ∧
      (connection_cursor [1, 2]
        (fun _ => (Except.error ⟨"boom"⟩ :
          Except CustomException (List Nat × Nat)))).db = [1, 2]) :=
  ⟨⟨rfl, rfl⟩,
    (C6_connection_cursor_scope [1, 2] (fun d => Except.ok (3 :: d, 7))).2.1
      (3 :: [1, 2]) 7 rfl,
    (C6_connection_cursor_scope [1, 2]
      (fun _ => (Except.error ⟨"boom"⟩ :
        Except CustomException (List Nat × Nat)))).2.2 ⟨"boom"⟩ rfl⟩

/-- C4 (counterexample): the wait is claimed to be
`base_delay * backoff_factor ^ (attempt - 1)` plus small jitter for every
network-facing operation.  `RabbitMQConfig` defines no base delay, and after
its first failed attempt `_connect` sleeps `RETRY_BACKOFF_FACTOR ^ 1 + jitter
>= 2`, while the claimed formula gives `2 ^ 0 + jitter <= 3 / 2`: no choice
of jitters in `[0, 1/2]` can reconcile the two. -/
theorem C4_counterexample :
    ¬ ∃ j, 0 ≤ j ∧ j ≤ (1 : ℚ) / 2 ∧ ∃ jc, 0 ≤ jc ∧ jc ≤ (1 : ℚ) / 2 ∧
      (rabbit_connect c4Outcome rabbitBackoffFactor (fun _ => j)
          rabbitRetries).2.1 =
        [specBackoffWait 1 rabbitBackoffFactor 1 jc] := by
  rintro ⟨j, hj0, hj1, jc, hjc0, hjc1, heq⟩
  have hrun := rabbitConnectGo_success c4Outcome rabbitBackoffFactor
    (fun _ => j) 1 rabbitRetries 0 (by decide)
    (fun k hk1 hk2 => by
      have : k = 1 := by omega
      rw [this]; rfl)
    (by rfl)
  have hw : (rabbit_connect c4Outcome rabbitBackoffFactor (fun _ => j)
      rabbitRetries).2.1 = [rabbitBackoffFactor ^ 1 + j] := by
    rw [rabbit_connect, hrun]
    rfl
  rw [hw] at heq
  have h2 : rabbitBackoffFactor ^ 1 + j = specBackoffWait 1 rabbitBackoffFactor 1 jc := by
    exact List.head_eq_of_cons_eq heq
  rw [specBackoffWait, rabbitBackoffFactor] at h2
  norm_num at h2
  linarith

/-- C4 (amended): on a run whose first `mFail` attempts fail transiently and
whose next attempt succeeds, the Mongo collection retrieval waits exactly
`RETRY_DELAY * 2 ^ (k - 1)` before attempt `k + 1` (no jitter term), while
the RabbitMQ connect waits `RETRY_BACKOFF_FACTOR ^ k` plus its jitter after
failed attempt `k` — exponent `k`, not `k - 1`, there being no configured
base delay. -/
theorem C4_amended_backoff_waits (fails : Nat → Bool)
    (outcome : Nat → AttemptOutcome) (delay factor : ℚ) (jitter : Nat → ℚ)
    (maxR retries mFail : Nat)
    (hm : mFail < maxR) (hmr : mFail < retries)
    (hfail : ∀ k, 1 ≤ k → k ≤ mFail → fails k = true)
    (hok : fails (mFail + 1) = false)
    (htrans : ∀ k, 1 ≤ k → k ≤ mFail → outcome k = AttemptOutcome.transient)
    (hsucc : outcome (mFail + 1) = AttemptOutcome.success) :
    (get_collection fails delay maxR).2.1 =
      (List.range' 1 mFail).map (fun k => delay * 2 ^ (k - 1)) ∧
    (rabbit_connect outcome factor jitter retries).2.1 =
      (List.range' 1 mFail).map (fun k => factor ^ k + jitter k) := by
  constructor
  · have h := getCollectionGo_success fails delay maxR maxR 1 (mFail + 1)
      (by omega) (by omega) (by omega)
      (fun k hk1 hk2 => hfail k hk1 (by omega)) hok
    rw [get_collection, h]
    simp
  · have h := rabbitConnectGo_success outcome factor jitter mFail retries 0
      hmr (fun k hk1 hk2 => htrans k (by omega) (by omega))
      (by simpa using hsucc)
    rw [rabbit_connect, h]

/-- C4 witness: two transient failures then success, with the configured
delay 1.0, factor 2.0 and zero jitter draws. -/
theorem C4_amended_backoff_waits_witness :
    ((2 : Nat) < mongoMaxRetries ∧ (2 : Nat) < rabbitRetries ∧
      (∀ k, 1 ≤ k → k ≤ 2 → (fun k => decide (k ≤ 2)) k = true) ∧
      (fun k => decide (k ≤ 2)) (2 + 1) = false ∧
      (∀ k, 1 ≤ k → k ≤ 2 →
        (fun k => if k ≤ 2 then AttemptOutcome.transient
          else AttemptOutcome.success) k = AttemptOutcome.transient) ∧
      (fun k => if k ≤ 2 then AttemptOutcome.transient
        else AttemptOutcome.success) (2 + 1) = AttemptOutcome.success) ∧
    ((get_collection (fun k => decide (k ≤ 2)) mongoRetryDelay
        mongoMaxRetries).2.1 =
      (List.range' 1 2).map (fun k => mongoRetryDelay * 2 ^ (k - 1)) ∧
     (rabbit_connect
        (fun k => if k ≤ 2 then AttemptOutcome.transient
          else AttemptOutcome.success)
        rabbitBackoffFactor (fun _ => 0) rabbitRetries).2.1 =
      (List.range' 1 2).map (fun k => rabbitBackoffFactor ^ k + 0)) :=
  ⟨⟨by decide, by decide,
    fun k _ h2 => decide_eq_true h2,
    by decide,
    fun k _ h2 => by simp [h2],
    by decide⟩,
   C4_amended_backoff_waits (fun k => decide (k ≤ 2))
     (fun k => if k ≤ 2 then AttemptOutcome.transient
       else AttemptOutcome.success)
     mongoRetryDelay rabbitBackoffFactor (fun _ => 0)
     mongoMaxRetries rabbitRetries 2
     (by decide) (by decide)
     (fun k _ h2 => decide_eq_true h2)
     (by decide)
     (fun k _ h2 => by simp [h2])
     (by decide)⟩

/-- C5: when every one of the configured attempts fails transiently, both
the Mongo collection retrieval and the RabbitMQ connection establishment
stop after exactly the configured number of attempts and raise the typed
`CustomException` to the caller. -/
theorem C5_retry_exhaustion_raises (fails : Nat → Bool)
    (outcome : Nat → AttemptOutcome) (delay factor : ℚ) (jitter : Nat → ℚ)
    (maxR retries : Nat) (hmaxR : 1 ≤ maxR)
    (hfails : ∀ k, 1 ≤ k → k ≤ maxR → fails k = true)
    (houtc : ∀ k, 1 ≤ k → k ≤ retries → outcome k = AttemptOutcome.transient) :
    ((get_collection fails delay maxR).1 =
        .exc ⟨"Failed to get MongoDB collection"⟩ ∧
      (get_collection fails delay maxR).2.2 = maxR) ∧
    ((rabbit_connect outcome factor jitter retries).1 =
        .exc ⟨"Failed to connect to RabbitMQ after retries."⟩ ∧
      (rabbit_connect outcome factor jitter retries).2.2 = retries) := by
  constructor
  · have h := getCollectionGo_exhaust fails delay maxR maxR 1 hmaxR
      (by omega) hfails
    rw [get_collection, h]
    exact ⟨rfl, rfl⟩
  · have h := rabbitConnectGo_exhaust outcome factor jitter retries 0
      (fun k hk1 hk2 => houtc k (by omega) (by omega))
    rw [rabbit_connect, h]
    exact ⟨rfl, rfl⟩

/-- C5 witness: every attempt fails transiently at the configured
max attempts (3 for Mongo, 5 for RabbitMQ). -/
theorem C5_retry_exhaustion_raises_witness :
    ((1 : Nat) ≤ mongoMaxRetries ∧
      (∀ k, 1 ≤ k → k ≤ mongoMaxRetries → (fun _ => true) k = true) ∧
      (∀ k, 1 ≤ k → k ≤ rabbitRetries →
        (fun _ => AttemptOutcome.transient) k = AttemptOutcome.transient)) ∧
    (((get_collection (fun _ => true) mongoRetryDelay mongoMaxRetries).1 =
        .exc ⟨"Failed to get MongoDB collection"⟩ ∧
      (get_collection (fun _ => true) mongoRetryDelay mongoMaxRetries).2.2 =
        mongoMaxRetries) ∧
     ((rabbit_connect (fun _ => AttemptOutcome.transient) rabbitBackoffFactor
         (fun _ => 0) rabbitRetries).1 =
        .exc ⟨"Failed to connect to RabbitMQ after retries."⟩ ∧
      (rabbit_connect (fun _ => AttemptOutcome.transient) rabbitBackoffFactor
         (fun _ => 0) rabbitRetries).2.2 = rabbitRetries)) :=
  ⟨⟨by decide, fun _ _ _ => rfl, fun _ _ _ => rfl⟩,
   C5_retry_exhaustion_raises (fun _ => true) (fun _ => AttemptOutcome.transient)
     mongoRetryDelay rabbitBackoffFactor (fun _ => 0)
     mongoMaxRetries rabbitRetries (by decide)
     (fun _ _ _ => rfl) (fun _ _ _ => rfl)⟩

/-- C8: `is_article_link_exists` answers `True` exactly when some stored
document's `url` equals the queried link, `False` otherwise, and raises the
typed `CustomException` exactly when the underlying query fails. -/
theorem C8_link_existence (queryFails : Bool) (coll : List ArticleDoc)
    (link : String) :
    (queryFails = false →
      (is_article_link_exists queryFails coll link = .ok true ↔
        ∃ d ∈ coll, d.url = link) ∧
      (is_article_link_exists queryFails coll link = .ok false ↔
        ¬ ∃ d ∈ coll, d.url = link)) ∧
    (queryFails = true →
      is_article_link_exists queryFails coll link =
        .error ⟨"Error while fetching data from MongoDB"⟩) := by
  constructor
  · rintro rfl
    simp only [is_article_link_exists, Bool.false_eq_true, if_false]
    cases hf : coll.find? (fun d => d.url == link) with
    | some d =>
      have hmem := List.mem_of_find?_eq_some hf
      have hp : d.url = link := by
        have := List.find?_some hf
        simpa using this
      constructor
      · simp only [Except.ok.injEq]
        exact ⟨fun _ => ⟨d, hmem, hp⟩, fun _ => trivial⟩
      · simp only [Except.ok.injEq]
        constructor
        · intro h; cases h
        · intro h; exact absurd ⟨d, hmem, hp⟩ h
    | none =>
      have hnone : ∀ d ∈ coll, ¬ d.url = link := by
        intro d hd
        have := List.find?_eq_none.mp hf d hd
        simpa using this
      constructor
      · simp only [Except.ok.injEq]
        constructor
        · intro h; cases h
        · rintro ⟨d, hd, hp⟩; exact absurd hp (hnone d hd)
      · simp only [Except.ok.injEq]
        exact ⟨fun _ => fun ⟨d, hd, hp⟩ => absurd hp (hnone d hd),
          fun _ => trivial⟩
  · rintro rfl
    rfl

/-- C8 witness: on a collection holding url `u`, the check answers `True`
for `u` (and the iff characterization holds there). -/
theorem C8_link_existence_witness :
    ((false : Bool) = false) ∧
    ((is_article_link_exists false [c2doc] "u" = .ok true ↔
        ∃ d ∈ [c2doc], d.url = "u") ∧
      (is_article_link_exists false [c2doc] "u" = .ok false ↔
        ¬ ∃ d ∈ [c2doc], d.url = "u")) :=
  ⟨rfl, (C8_link_existence false [c2doc] "u").1 rfl⟩

lemma getField_setField (fields : List (String × PyVal)) (k : String)
    (v : PyVal) : getField (setField k v fields) k = some v := by
  induction fields with
  | nil => simp [setField, getField, List.find?]
  | cons p ps ih =>
    by_cases h : p.1 = k
    · simp [setField, h, getField, List.find?]
    · have hb : (p.1 == k) = false := by simp [h]
      simp only [setField, hb, Bool.false_eq_true, if_false]
      simp only [getField, List.find?, hb] at ih ⊢
      exact ih

lemma json_dumps_some {fields body : List (String × PyVal)}
    (h : json_dumps fields = some body) :
    body = fields ∧ fields.all (fun p => jsonSerializable p.2) = true := by
  by_cases hall : fields.all (fun p => jsonSerializable p.2) = true
  · rw [json_dumps, if_pos hall] at h
    cases h
    exact ⟨rfl, hall⟩
  · rw [json_dumps, if_neg hall] at h
    cases h

/-- C10: `publish` raises `CustomException` on any non-dict message with
nothing handed to the broker; a dict whose `published` value is a datetime
has that value replaced by its ISO-8601 string before JSON encoding, and
every body actually handed to the broker is JSON-serializable. -/
theorem C10_publish_conversion (m : PyObj) :
    (m = .nonDict →
      (publish m).result = .error ⟨"Message must be a dict"⟩ ∧
      (publish m).delivered = none) ∧
    (∀ fields t body, m = .dict fields →
      getField fields "published" = some (.datetime t) →
      (publish m).delivered = some body →
      getField body "published" = some (.str (isoformat t))) ∧
    (∀ body, (publish m).delivered = some body →
      body.all (fun p => jsonSerializable p.2) = true) := by
  refine ⟨?_, ?_, ?_⟩
  · rintro rfl
    exact ⟨rfl, rfl⟩
  · intro fields t body hm hget hdel
    subst hm
    simp only [publish, hget] at hdel
    cases hj : json_dumps (setField "published" (.str (isoformat t)) fields) with
    | some b =>
      rw [hj] at hdel
      simp only at hdel
      cases hdel
      obtain ⟨hb, _⟩ := json_dumps_some hj
      rw [hb]
      exact getField_setField fields "published" (.str (isoformat t))
    | none =>
      rw [hj] at hdel
      simp at hdel
  · intro body hdel
    cases m with
    | nonDict => simp [publish] at hdel
    | dict fields =>
      simp only [publish] at hdel
      cases hg : getField fields "published" with
      | some v =>
        cases v with
        | datetime t =>
          rw [hg] at hdel
          simp only at hdel
          cases hj : json_dumps (setField "published" (.str (isoformat t)) fields) with
          | some b =>
            rw [hj] at hdel
            simp only at hdel
            cases hdel
            obtain ⟨hb, hall⟩ := json_dumps_some hj
            rw [hb]; exact hall
          | none => rw [hj] at hdel; simp at hdel
        | str s =>
          rw [hg] at hdel
          simp only at hdel
          cases hj : json_dumps fields with
          | some b =>
            rw [hj] at hdel
            simp only at hdel
            cases hdel
            obtain ⟨hb, hall⟩ := json_dumps_some hj
            rw [hb]; exact hall
          | none => rw [hj] at hdel; simp at hdel
        | num n =>
          rw [hg] at hdel
          simp only at hdel
          cases hj : json_dumps fields with
          | some b =>
            rw [hj] at hdel
            simp only at hdel
            cases hdel
            obtain ⟨hb, hall⟩ := json_dumps_some hj
            rw [hb]; exact hall
          | none => rw [hj] at hdel; simp at hdel
        | other =>
          rw [hg] at hdel
          simp only at hdel
          cases hj : json_dumps fields with
          | some b =>
            rw [hj] at hdel
            simp only at hdel
            cases hdel
            obtain ⟨hb, hall⟩ := json_dumps_some hj
            rw [hb]; exact hall
          | none => rw [hj] at hdel; simp at hdel
      | none =>
        rw [hg] at hdel
        simp only at hdel
        cases hj : json_dumps fields with
        | some b =>
          rw [hj] at hdel
          simp only at hdel
          cases hdel
          obtain ⟨hb, hall⟩ := json_dumps_some hj
          rw [hb]; exact hall
        | none => rw [hj] at hdel; simp at hdel

/-- C10 witness: a dict message carrying a datetime at `published` is
delivered with that field converted to its ISO string. -/
theorem C10_publish_conversion_witness :
    ((PyObj.dict [("published", PyVal.datetime 42)] =
        PyObj.dict [("published", PyVal.datetime 42)]) ∧
      getField [("published", PyVal.datetime 42)] "published" =
        some (PyVal.datetime 42) ∧
      (publish (PyObj.dict [("published", PyVal.datetime 42)])).delivered =
        some [("published", PyVal.str (isoformat 42))]) ∧
    getField [("published", PyVal.str (isoformat 42))] "published" =
      some (PyVal.str (isoformat 42)) :=
  ⟨⟨rfl, rfl, rfl⟩,
    (C10_publish_conversion (PyObj.dict [("published", PyVal.datetime 42)])).2.1
      [("published", PyVal.datetime 42)] 42
      [("published", PyVal.str (isoformat 42))] rfl rfl rfl⟩

lemma countOf_cons (k' : Nat) (c : Nat) (gs : List (Nat × Nat)) (k : Nat) :
    countOf ((k', c) :: gs) k = if k' = k then c else countOf gs k := by
  by_cases h : k' = k
  · simp [countOf, List.find?, h]
  · have hb : (k' == k) = false := by simp [h]
    simp [countOf, List.find?, hb, h]

lemma countOf_bumpDate (k0 : Nat) (gs : List (Nat × Nat)) (k : Nat) :
    countOf (bumpDate k0 gs) k =
      if k = k0 then countOf gs k + 1 else countOf gs k := by
  induction gs with
  | nil =>
    rw [bumpDate, countOf_cons]
    by_cases h : k = k0
    · rw [if_pos (h ▸ rfl), if_pos h]
      rfl
    · rw [if_neg (fun hh => h hh.symm), if_neg h]
  | cons p gs ih =>
    obtain ⟨k', c⟩ := p
    by_cases h0 : k0 = k'
    · subst h0
      rw [bumpDate, if_pos rfl, countOf_cons, countOf_cons]
      by_cases h : k0 = k
      · rw [if_pos h, if_pos h, if_pos h.symm]
      · rw [if_neg h, if_neg h, if_neg (fun hh : k = k0 => h hh.symm)]
    · rw [bumpDate, if_neg h0, countOf_cons, countOf_cons, ih]
      by_cases h : k' = k
      · have hk : ¬ k = k0 := by omega
        rw [if_pos h, if_pos h, if_neg hk]
      · rw [if_neg h, if_neg h]

lemma mem_keys_bumpDate {k0 k : Nat} {gs : List (Nat × Nat)} :
    k ∈ (bumpDate k0 gs).map Prod.fst ↔ k = k0 ∨ k ∈ gs.map Prod.fst := by
  induction gs with
  | nil => simp [bumpDate]
  | cons p gs ih =>
    obtain ⟨k', c⟩ := p
    by_cases h0 : k0 = k'
    · subst h0
      rw [bumpDate, if_pos rfl]
      simp only [List.map_cons, List.mem_cons]
      constructor
      · rintro (h | h)
        · exact Or.inl h
        · exact Or.inr (Or.inr h)
      · rintro (h | h | h)
        · exact Or.inl h
        · exact Or.inl h
        · exact Or.inr h
    · rw [bumpDate, if_neg h0]
      simp only [List.map_cons, List.mem_cons, ih]
      tauto

lemma nodup_keys_bumpDate {k0 : Nat} {gs : List (Nat × Nat)}
    (h : (gs.map Prod.fst).Nodup) :
    ((bumpDate k0 gs).map Prod.fst).Nodup := by
  induction gs with
  | nil => simp [bumpDate]
  | cons p gs ih =>
    obtain ⟨k', c⟩ := p
    simp only [List.map_cons, List.nodup_cons] at h
    by_cases h0 : k0 = k'
    · subst h0
      rw [bumpDate, if_pos rfl]
      simp only [List.map_cons, List.nodup_cons]
      exact h
    · rw [bumpDate, if_neg h0]
      simp only [List.map_cons, List.nodup_cons]
      refine ⟨?_, ih h.2⟩
      rw [mem_keys_bumpDate]
      rintro (hh | hh)
      · exact h0 hh.symm
      · exact h.1 hh

lemma pos_bumpDate {k0 : Nat} {gs : List (Nat × Nat)}
    (h : ∀ p ∈ gs, 0 < p.2) : ∀ p ∈ bumpDate k0 gs, 0 < p.2 := by
  induction gs with
  | nil =>
    intro p hp
    simp [bumpDate] at hp
    subst hp
    simp
  | cons q gs ih =>
    obtain ⟨k', c⟩ := q
    by_cases h0 : k0 = k'
    · subst h0
      rw [bumpDate, if_pos rfl]
      intro p hp
      rcases List.mem_cons.mp hp with hp | hp
      · subst hp; omega
      · exact h p (List.mem_cons_of_mem _ hp)
    · rw [bumpDate, if_neg h0]
      intro p hp
      rcases List.mem_cons.mp hp with hp | hp
      · subst hp; exact h (k', c) (List.mem_cons_self _ _)
      · exact ih (fun q hq => h q (List.mem_cons_of_mem _ hq)) p hp

lemma bumpDate_ne_nil (k0 : Nat) (gs : List (Nat × Nat)) :
    bumpDate k0 gs ≠ [] := by
  cases gs with
  | nil => simp [bumpDate]
  | cons p gs =>
    obtain ⟨k', c⟩ := p
    by_cases h0 : k0 = k'
    · rw [bumpDate, if_pos h0]; simp
    · rw [bumpDate, if_neg h0]; simp

lemma countOf_groupByDate (docs : List ArticleDoc) (k : Nat) :
    countOf (groupByDate docs) k = countDate docs k := by
  induction docs with
  | nil => simp [groupByDate, countOf, countDate, List.find?]
  | cons a as ih =>
    rw [groupByDate, countOf_bumpDate, countDate, List.countP_cons]
    rw [countDate] at ih
    by_cases h : k = dateOf a.published
    · rw [if_pos h, ih]
      have hb : (dateOf a.published == k) = true := by simp [h.symm]
      rw [hb]
      simp
    · rw [if_neg h, ih]
      have hb : (dateOf a.published == k) = false := by
        simp
        exact fun hh => h hh.symm
      rw [hb]
      simp

lemma nodup_keys_groupByDate (docs : List ArticleDoc) :
    ((groupByDate docs).map Prod.fst).Nodup := by
  induction docs with
  | nil => simp [groupByDate]
  | cons a as ih => exact nodup_keys_bumpDate ih

lemma pos_groupByDate (docs : List ArticleDoc) :
    ∀ p ∈ groupByDate docs, 0 < p.2 := by
  induction docs with
  | nil => intro p hp; simp [groupByDate] at hp
  | cons a as ih => exact pos_bumpDate ih

lemma groupByDate_ne_nil {docs : List ArticleDoc} (h : docs ≠ []) :
    groupByDate docs ≠ [] := by
  cases docs with
  | nil => exact absurd rfl h
  | cons a as => exact bumpDate_ne_nil _ _

lemma mem_iff_countOf {gs : List (Nat × Nat)}
    (hnd : (gs.map Prod.fst).Nodup) (hpos : ∀ p ∈ gs, 0 < p.2)
    (k c : Nat) : (k, c) ∈ gs ↔ (countOf gs k = c ∧ 0 < c) := by
  induction gs with
  | nil =>
    constructor
    · intro h; simp at h
    · rintro ⟨h1, h2⟩
      rw [countOf] at h1
      simp [List.find?] at h1
      omega
  | cons p gs ih =>
    obtain ⟨k', c'⟩ := p
    simp only [List.map_cons, List.nodup_cons] at hnd
    have ihx := ih hnd.2 (fun q hq => hpos q (List.mem_cons_of_mem _ hq))
    rw [countOf_cons]
    constructor
    · intro hmem
      rcases List.mem_cons.mp hmem with heq | hmem'
      · injection heq with h1 h2
        subst h1
        subst h2
        exact ⟨by rw [if_pos rfl], hpos _ (List.mem_cons_self _ _)⟩
      · have hk : k' ≠ k := by
          intro hh
          subst hh
          exact hnd.1 (List.mem_map.mpr ⟨(k', c), hmem', rfl⟩)
        rw [if_neg hk]
        exact ihx.mp hmem'
    · rintro ⟨hcount, hc⟩
      by_cases hk : k' = k
      · rw [if_pos hk] at hcount
        subst hk
        subst hcount
        exact List.mem_cons_self _ _
      · rw [if_neg hk] at hcount
        exact List.mem_cons_of_mem _ (ihx.mpr ⟨hcount, hc⟩)

/-- C9 (counterexample): the aggregation is claimed to return a list of
pairs for every store state; on the empty store both repository functions
return `None`, not a list. -/
theorem C9_counterexample :
    get_all_scarped_date_wise_doc_counts [] = none := rfl

/-- C9 (amended): on every non-empty store state the aggregation returns
`Some` list holding exactly one pair per distinct published date, whose
count is the number of records published on that date, sorted strictly
ascending by date; on the empty store it returns `None`. -/
theorem C9_amended_date_wise_counts (docs : List ArticleDoc) (hne : docs ≠ []) :
    ∃ l, get_all_scarped_date_wise_doc_counts docs = some l ∧
      l.Pairwise (fun p q => p.1 < q.1) ∧
      ∀ k c, ((k, c) ∈ l ↔ (countDate docs k = c ∧ 0 < c)) := by
  have hperm : List.Perm
      (List.insertionSort (fun p q : Nat × Nat => p.1 ≤ q.1)
        (groupByDate docs))
      (groupByDate docs) :=
    List.perm_insertionSort _ _
  have hkeys := nodup_keys_groupByDate docs
  have hpos := pos_groupByDate docs
  have hlnil : List.insertionSort (fun p q : Nat × Nat => p.1 ≤ q.1)
      (groupByDate docs) ≠ [] := by
    intro h
    have h0 : groupByDate docs = [] := by
      have := hperm.length_eq
      rw [h] at this
      exact List.length_eq_zero.mp this.symm
    exact groupByDate_ne_nil hne h0
  refine ⟨List.insertionSort (fun p q : Nat × Nat => p.1 ≤ q.1)
    (groupByDate docs), ?_, ?_, ?_⟩
  · rw [get_all_scarped_date_wise_doc_counts]
    rw [if_neg hlnil]
  · have hsorted : (List.insertionSort (fun p q : Nat × Nat => p.1 ≤ q.1)
        (groupByDate docs)).Pairwise (fun p q => p.1 ≤ q.1) :=
      List.sorted_insertionSort _ _
    have hkeysl : ((List.insertionSort (fun p q : Nat × Nat => p.1 ≤ q.1)
        (groupByDate docs)).map Prod.fst).Nodup :=
      (hperm.map Prod.fst).nodup_iff.mpr hkeys
    have hne' : (List.insertionSort (fun p q : Nat × Nat => p.1 ≤ q.1)
        (groupByDate docs)).Pairwise (fun p q => p.1 ≠ q.1) :=
      List.pairwise_map.mp hkeysl
    exact (hsorted.and hne').imp (fun h => Nat.lt_of_le_of_ne h.1 h.2)
  · intro k c
    rw [hperm.mem_iff,
      mem_iff_countOf hkeys hpos k c,
      countOf_groupByDate]

/-- C9 witness: three records over two days aggregate to the sorted counted
pairs, verified through the amended theorem at the concrete store. -/
theorem C9_amended_date_wise_counts_witness :
    c9docs ≠ [] ∧
    ∃ l, get_all_scarped_date_wise_doc_counts c9docs = some l ∧
      l.Pairwise (fun p q => p.1 < q.1) ∧
      ∀ k c, ((k, c) ∈ l ↔ (countDate c9docs k = c ∧ 0 < c)) :=
  ⟨by decide, C9_amended_date_wise_counts c9docs (by decide)⟩

end BBCNewsETL
